import Mathlib

/-!
Verification of the inotify wrapper (`src/wrapper.rs`) against its
natural-language specification.

The development is a shallow embedding of the wrapper's code:

* the OS bit constants (`IN_*`, `O_NONBLOCK`, `EAGAIN`, `EBADF`) are the
  Linux values used by the crate's `ffi` module;
* the decode loop of `INotify::available_events` becomes the recursive
  function `decodeFrom` over a byte buffer (bytes are `Nat`s, 32-bit wire
  fields are read little-endian via `readLE32`);
* the OS calls (`read`, `fcntl`, `inotify_init1`, `inotify_add_watch`,
  `inotify_rm_watch`) are parameters: each wrapper function takes the
  outcome the OS produced and the embedding reproduces the Rust control
  flow on that outcome, threading `errno` and the descriptor flag word
  explicitly where the code depends on them.
-/

namespace Inotify

/-! ## OS constants

Modelled from the spec: the crate's `ffi` module (not under `src/`) holds the
kernel's inotify bit constants; these are the standard Linux values
(`IN_CLOSE` and `IN_MOVE` are the unions of their two constituent bits). -/

def IN_ACCESS : Nat := 0x00000001
def IN_MODIFY : Nat := 0x00000002
def IN_ATTRIB : Nat := 0x00000004
def IN_CLOSE_WRITE : Nat := 0x00000008
def IN_CLOSE_NOWRITE : Nat := 0x00000010
def IN_OPEN : Nat := 0x00000020
def IN_MOVED_FROM : Nat := 0x00000040
def IN_MOVED_TO : Nat := 0x00000080
def IN_CREATE : Nat := 0x00000100
def IN_DELETE : Nat := 0x00000200
def IN_DELETE_SELF : Nat := 0x00000400
def IN_MOVE_SELF : Nat := 0x00000800
def IN_UNMOUNT : Nat := 0x00002000
def IN_Q_OVERFLOW : Nat := 0x00004000
def IN_IGNORED : Nat := 0x00008000
def IN_CLOSE : Nat := IN_CLOSE_WRITE ||| IN_CLOSE_NOWRITE
def IN_MOVE : Nat := IN_MOVED_FROM ||| IN_MOVED_TO
def IN_ISDIR : Nat := 0x40000000

/-- Linux `O_NONBLOCK` (octal 04000). -/
def O_NONBLOCK : Nat := 2048
/-- Linux `EAGAIN`. -/
def EAGAIN : Nat := 11
/-- Linux `EWOULDBLOCK` (same value as `EAGAIN` on Linux). -/
def EWOULDBLOCK : Nat := 11
/-- Linux `EBADF`. -/
def EBADF : Nat := 9

/-! ## Event and its mask predicates (`struct Event` / `impl Event`) -/

/-- Embedding of `pub struct Event`. The `name` is kept as the byte
sequence the decoder exposes (the Rust code additionally decodes those
bytes as UTF-8 into a `String`, panicking on invalid UTF-8). -/
structure Event where
  wd : Int
  mask : Nat
  cookie : Nat
  name : List Nat
deriving Repr, DecidableEq

def Event.is_access (e : Event) : Bool := decide (0 < e.mask &&& IN_ACCESS)

def Event.is_modify (e : Event) : Bool := decide (0 < e.mask &&& IN_MODIFY)

def Event.is_attrib (e : Event) : Bool := decide (0 < e.mask &&& IN_ATTRIB)

def Event.is_close_write (e : Event) : Bool := decide (0 < e.mask &&& IN_CLOSE_WRITE)

def Event.is_close_nowrite (e : Event) : Bool := decide (0 < e.mask &&& IN_CLOSE_NOWRITE)

def Event.is_open (e : Event) : Bool := decide (0 < e.mask &&& IN_OPEN)

def Event.is_moved_from (e : Event) : Bool := decide (0 < e.mask &&& IN_MOVED_FROM)

def Event.is_moved_to (e : Event) : Bool := decide (0 < e.mask &&& IN_MOVED_TO)

def Event.is_create (e : Event) : Bool := decide (0 < e.mask &&& IN_CREATE)

def Event.is_delete (e : Event) : Bool := decide (0 < e.mask &&& IN_DELETE)

def Event.is_delete_self (e : Event) : Bool := decide (0 < e.mask &&& IN_DELETE_SELF)

def Event.is_move_self (e : Event) : Bool := decide (0 < e.mask &&& IN_MOVE_SELF)

def Event.is_move (e : Event) : Bool := decide (0 < e.mask &&& IN_MOVE)

def Event.is_close (e : Event) : Bool := decide (0 < e.mask &&& IN_CLOSE)

def Event.is_dir (e : Event) : Bool := decide (0 < e.mask &&& IN_ISDIR)

def Event.is_unmount (e : Event) : Bool := decide (0 < e.mask &&& IN_UNMOUNT)

def Event.is_queue_overflow (e : Event) : Bool := decide (0 < e.mask &&& IN_Q_OVERFLOW)

def Event.is_ignored (e : Event) : Bool := decide (0 < e.mask &&& IN_IGNORED)

/-! ## C4 helper lemmas -/

lemma and_mask_restrict (m c : Nat) : m &&& c &&& c = m &&& c := by
  apply Nat.eq_of_testBit_eq
  intro i
  simp [Nat.testBit_and, Bool.and_assoc]

/-- C4: each boolean predicate on `Event` is true iff the event's mask
meets the predicate's `IN_*` constant (for the sixteen single-bit
constants this says exactly that the corresponding bit is set), and its
value depends only on the bits of the mask selected by that constant —
restricting the mask to those bits leaves every predicate unchanged, so
each predicate is independent of every other bit. -/
theorem mask_predicates_iff_bit (e : Event) :
    (e.is_access = true ↔ 0 < e.mask &&& IN_ACCESS) ∧
    (Event.is_access { e with mask := e.mask &&& IN_ACCESS } = e.is_access) ∧
    (e.is_modify = true ↔ 0 < e.mask &&& IN_MODIFY) ∧
    (Event.is_modify { e with mask := e.mask &&& IN_MODIFY } = e.is_modify) ∧
    (e.is_attrib = true ↔ 0 < e.mask &&& IN_ATTRIB) ∧
    (Event.is_attrib { e with mask := e.mask &&& IN_ATTRIB } = e.is_attrib) ∧
    (e.is_close_write = true ↔ 0 < e.mask &&& IN_CLOSE_WRITE) ∧
    (Event.is_close_write { e with mask := e.mask &&& IN_CLOSE_WRITE } = e.is_close_write) ∧
    (e.is_close_nowrite = true ↔ 0 < e.mask &&& IN_CLOSE_NOWRITE) ∧
    (Event.is_close_nowrite { e with mask := e.mask &&& IN_CLOSE_NOWRITE } = e.is_close_nowrite) ∧
    (e.is_open = true ↔ 0 < e.mask &&& IN_OPEN) ∧
    (Event.is_open { e with mask := e.mask &&& IN_OPEN } = e.is_open) ∧
    (e.is_moved_from = true ↔ 0 < e.mask &&& IN_MOVED_FROM) ∧
    (Event.is_moved_from { e with mask := e.mask &&& IN_MOVED_FROM } = e.is_moved_from) ∧
    (e.is_moved_to = true ↔ 0 < e.mask &&& IN_MOVED_TO) ∧
    (Event.is_moved_to { e with mask := e.mask &&& IN_MOVED_TO } = e.is_moved_to) ∧
    (e.is_create = true ↔ 0 < e.mask &&& IN_CREATE) ∧
    (Event.is_create { e with mask := e.mask &&& IN_CREATE } = e.is_create) ∧
    (e.is_delete = true ↔ 0 < e.mask &&& IN_DELETE) ∧
    (Event.is_delete { e with mask := e.mask &&& IN_DELETE } = e.is_delete) ∧
    (e.is_delete_self = true ↔ 0 < e.mask &&& IN_DELETE_SELF) ∧
    (Event.is_delete_self { e with mask := e.mask &&& IN_DELETE_SELF } = e.is_delete_self) ∧
    (e.is_move_self = true ↔ 0 < e.mask &&& IN_MOVE_SELF) ∧
    (Event.is_move_self { e with mask := e.mask &&& IN_MOVE_SELF } = e.is_move_self) ∧
    (e.is_move = true ↔ 0 < e.mask &&& IN_MOVE) ∧
    (Event.is_move { e with mask := e.mask &&& IN_MOVE } = e.is_move) ∧
    (e.is_close = true ↔ 0 < e.mask &&& IN_CLOSE) ∧
    (Event.is_close { e with mask := e.mask &&& IN_CLOSE } = e.is_close) ∧
    (e.is_dir = true ↔ 0 < e.mask &&& IN_ISDIR) ∧
    (Event.is_dir { e with mask := e.mask &&& IN_ISDIR } = e.is_dir) ∧
    (e.is_unmount = true ↔ 0 < e.mask &&& IN_UNMOUNT) ∧
    (Event.is_unmount { e with mask := e.mask &&& IN_UNMOUNT } = e.is_unmount) ∧
    (e.is_queue_overflow = true ↔ 0 < e.mask &&& IN_Q_OVERFLOW) ∧
    (Event.is_queue_overflow { e with mask := e.mask &&& IN_Q_OVERFLOW } = e.is_queue_overflow) ∧
    (e.is_ignored = true ↔ 0 < e.mask &&& IN_IGNORED) ∧
    (Event.is_ignored { e with mask := e.mask &&& IN_IGNORED } = e.is_ignored) := by
  refine ⟨?_, ?_, ?_, ?_, ?_, ?_, ?_, ?_, ?_, ?_, ?_, ?_, ?_, ?_, ?_, ?_, ?_, ?_,
    ?_, ?_, ?_, ?_, ?_, ?_, ?_, ?_, ?_, ?_, ?_, ?_, ?_, ?_, ?_, ?_, ?_, ?_⟩ <;>
    simp [Event.is_access, Event.is_modify, Event.is_attrib, Event.is_close_write,
      Event.is_close_nowrite, Event.is_open, Event.is_moved_from, Event.is_moved_to,
      Event.is_create, Event.is_delete, Event.is_delete_self, Event.is_move_self,
      Event.is_move, Event.is_close, Event.is_dir, Event.is_unmount,
      Event.is_queue_overflow, Event.is_ignored, and_mask_restrict]

/-! ## The decode loop of `INotify::available_events`

The Rust loop walks a zero-initialised 1024-byte buffer of which the first
`len` bytes were filled by `read`. At offset `i` it reinterprets the bytes
as a `struct inotify_event { wd: c_int, mask: u32, cookie: u32, len: u32 }`
(four 4-byte fields, native little-endian on x86), takes the `len`-byte
name payload that follows, truncates it at its first null byte, and
advances by `size_of::<inotify_event>() + len`. -/

/-- Byte `i` of the buffer; out-of-range reads yield the buffer's
zero-initialised fill (the Rust code reads from the fixed 1024-byte
array, whose bytes beyond the filled portion are `0u8`). -/
def byteAt (buf : List Nat) (i : Nat) : Nat := buf.getD i 0

/-- Read a little-endian 32-bit field starting at byte offset `i`. -/
def readLE32 (buf : List Nat) (i : Nat) : Nat :=
  byteAt buf i + 2 ^ 8 * byteAt buf (i + 1) + 2 ^ 16 * byteAt buf (i + 2) +
    2 ^ 24 * byteAt buf (i + 3)

/-- Reinterpret a 32-bit wire value as the signed `c_int` it encodes
(two's complement). -/
def toI32 (n : Nat) : Int := if n < 2 ^ 31 then (n : Int) else (n : Int) - 2 ^ 32

/-- Truncation of the raw name payload at its first null byte: the Rust
code finds `position_elem(&0)` and keeps the bytes before it (all of the
payload when no null occurs). -/
def recordName (payload : List Nat) : List Nat := payload.takeWhile (· ≠ 0)

/-- The `Event` built from the record starting at offset `i`: header
fields read little-endian, name taken from the `len` bytes after the
16-byte header when `len > 0` (truncated at the first null), empty
otherwise. This gives the byte-level name only; the loop's UTF-8
conversion of those bytes, which panics on invalid UTF-8, is modelled by
`validUTF8` and the checked decoder `decodeFromChecked` below. -/
def eventAt (buf : List Nat) (i : Nat) : Event :=
  let lenField := readLE32 buf (i + 12)
  { wd := toI32 (readLE32 buf i)
    mask := readLE32 buf (i + 4)
    cookie := readLE32 buf (i + 8)
    name := if 0 < lenField then recordName ((buf.drop (i + 16)).take lenField) else [] }

/-- The decode loop with the UTF-8 panic path elided: every record
contributes its byte-level event. `decodeFromChecked` below refines this
with the loop's UTF-8 check; on a pass where every truncated name is
valid UTF-8 the two agree. -/
def decodeFrom (buf : List Nat) (len i : Nat) : List Event :=
  if h : i < len then
    eventAt buf i :: decodeFrom buf len (i + 16 + readLE32 buf (i + 12))
  else []
termination_by len - i
decreasing_by omega

/-- The offset at which the decode loop stops (the final value of `i`). -/
def decodeEndOffset (buf : List Nat) (len i : Nat) : Nat :=
  if h : i < len then
    decodeEndOffset buf len (i + 16 + readLE32 buf (i + 12))
  else i
termination_by len - i
decreasing_by omega

/-- Fuel-indexed copy of the decode loop, used to state termination:
`none` means the fuel ran out before the loop condition failed. -/
def decodeFromFuel : Nat → List Nat → Nat → Nat → Option (List Event)
  | 0, _, len, i => if i < len then none else some []
  | f + 1, buf, len, i =>
    if i < len then
      (decodeFromFuel f buf len (i + 16 + readLE32 buf (i + 12))).map
        (fun t => eventAt buf i :: t)
    else some []

/-- Acceptance of a byte sequence as UTF-8, modelling the loop's
`c_str.container_as_str()` (`str::from_utf8`) check on the truncated
name: RFC 3629 — ASCII, and 2/3/4-byte sequences with their continuation
ranges, excluding surrogates, overlong forms and code points above
`U+10FFFF`. The loop panics when this fails. -/
def validUTF8 : List Nat → Bool
  | [] => true
  | b1 :: rest =>
    if b1 ≤ 0x7F then validUTF8 rest
    else if 0xC2 ≤ b1 ∧ b1 ≤ 0xDF then
      match rest with
      | b2 :: rest2 => decide (0x80 ≤ b2 ∧ b2 ≤ 0xBF) && validUTF8 rest2
      | [] => false
    else if 0xE0 ≤ b1 ∧ b1 ≤ 0xEF then
      match rest with
      | b2 :: b3 :: rest3 =>
        (decide ((b1 = 0xE0 ∧ 0xA0 ≤ b2 ∧ b2 ≤ 0xBF) ∨
            (0xE1 ≤ b1 ∧ b1 ≤ 0xEC ∧ 0x80 ≤ b2 ∧ b2 ≤ 0xBF) ∨
            (b1 = 0xED ∧ 0x80 ≤ b2 ∧ b2 ≤ 0x9F) ∨
            (0xEE ≤ b1 ∧ b1 ≤ 0xEF ∧ 0x80 ≤ b2 ∧ b2 ≤ 0xBF)) &&
          decide (0x80 ≤ b3 ∧ b3 ≤ 0xBF)) && validUTF8 rest3
      | _ => false
    else if 0xF0 ≤ b1 ∧ b1 ≤ 0xF4 then
      match rest with
      | b2 :: b3 :: b4 :: rest4 =>
        (decide ((b1 = 0xF0 ∧ 0x90 ≤ b2 ∧ b2 ≤ 0xBF) ∨
            (0xF1 ≤ b1 ∧ b1 ≤ 0xF3 ∧ 0x80 ≤ b2 ∧ b2 ≤ 0xBF) ∨
            (b1 = 0xF4 ∧ 0x80 ≤ b2 ∧ b2 ≤ 0x8F)) &&
          decide (0x80 ≤ b3 ∧ b3 ≤ 0xBF) && decide (0x80 ≤ b4 ∧ b4 ≤ 0xBF)) &&
          validUTF8 rest4
      | _ => false
    else false

/-- The decode loop with its panic path: a record with a positive
name-length field whose truncated name fails UTF-8 validation makes the
whole pass panic (`none`) — no events are produced, mirroring the
`panic!("Failed to convert C string into Rust string")` arm; records
without a name field undergo no check. -/
def decodeFromChecked (buf : List Nat) (len i : Nat) : Option (List Event) :=
  if h : i < len then
    if (if 0 < readLE32 buf (i + 12) then
          validUTF8 (recordName ((buf.drop (i + 16)).take (readLE32 buf (i + 12))))
        else true) then
      (decodeFromChecked buf len (i + 16 + readLE32 buf (i + 12))).map
        (fun t => eventAt buf i :: t)
    else none
  else some []
termination_by len - i
decreasing_by omega

/-! ## The wrapper operations

Each OS call is a parameter describing the outcome the kernel produced;
the definitions reproduce the Rust control flow on that outcome. -/

/-- Outcome of the one `ffi::read` call that feeds a decode pass:
its return value, the value of `errno` right after it, and the buffer
contents (the 1024-byte zero-initialised array after the read). -/
structure ReadOutcome where
  retval : Int
  errnoAfter : Nat
  buffer : List Nat

/-- The error component of the old `IoResult`: `available_events` builds
either the `EndOfFile` kind or an error from a raw `errno`. -/
inductive IoErrorKind where
  | endOfFile
  | fromErrno (errno : Nat)
deriving Repr, DecidableEq

/-- Embedding of `INotify::available_events`. The first component is the
session's `events` container after the call (cleared at entry, then
repopulated on the decode path), the second the returned `IoResult`. -/
def available_events (events0 : List Event) (r : ReadOutcome) :
    List Event × Except IoErrorKind (List Event) :=
  let _ := events0   -- self.events.clear(): the previous batch is discarded
  let cleared : List Event := []
  if r.retval = 0 then (cleared, .error .endOfFile)
  else if r.retval = -1 then
    if r.errnoAfter = EAGAIN ∨ r.errnoAfter = EWOULDBLOCK then (cleared, .ok cleared)
    else (cleared, .error (.fromErrno r.errnoAfter))
  else
    let evs := decodeFrom r.buffer r.retval.toNat 0
    (evs, .ok evs)

/-- Embedding of `INotify::available_events` with the decode loop's UTF-8
panic carried through: `none` is a pass that panicked mid-loop (the call
never returns), `some` the events container and returned `IoResult` as in
`available_events`. The error branches cannot panic and the decode branch
panics exactly when `decodeFromChecked` does. -/
def available_events_checked (events0 : List Event) (r : ReadOutcome) :
    Option (List Event × Except IoErrorKind (List Event)) :=
  let _ := events0
  if r.retval = 0 then some ([], .error .endOfFile)
  else if r.retval = -1 then
    if r.errnoAfter = EAGAIN ∨ r.errnoAfter = EWOULDBLOCK then some ([], .ok [])
    else some ([], .error (.fromErrno r.errnoAfter))
  else
    (decodeFromChecked r.buffer r.retval.toNat 0).map (fun evs => (evs, .ok evs))

/-- Embedding of `INotify::wait_for_events`. `flags0` is the descriptor's
flag word before the call; the result carries the flag word after the
call, the events container, and the returned `IoResult`. The two `fcntl`
round-trips clear and then set `O_NONBLOCK` (a `c_int` is 32 bits, so
`!O_NONBLOCK` is the 32-bit complement). -/
def wait_for_events (flags0 : Nat) (events0 : List Event) (r : ReadOutcome) :
    Nat × List Event × Except IoErrorKind (List Event) :=
  let flags1 := flags0 &&& (2 ^ 32 - 1 - O_NONBLOCK)
  let res := available_events events0 r
  let flags2 := flags1 ||| O_NONBLOCK
  (flags2, res.1, res.2)

/-- Result of `INotify::rm_watch`: `panicked` stands for the `panic!` arm. -/
inductive RmWatchResult where
  | ok
  | error (errno : Nat)
  | panicked
deriving Repr, DecidableEq

/-- Embedding of `INotify::rm_watch`, as a function of the return value of
`ffi::inotify_rm_watch` and of `errno` after it. -/
def rm_watch (osResult : Int) (errnoAfter : Nat) : RmWatchResult :=
  if osResult = 0 then .ok
  else if osResult = -1 then .error errnoAfter
  else .panicked

/-- Result of `INotify::add_watch`: `panicked` stands for the assertion
failure inside `CString::from_slice`. -/
inductive AddWatchResult where
  | ok (wd : Int)
  | error (errno : Nat)
  | panicked
deriving Repr, DecidableEq

/-- Outcome of `INotify::add_watch`: whether `ffi::inotify_add_watch` was
invoked at all, and the result the caller sees. -/
structure AddWatchOutcome where
  osCalled : Bool
  result : AddWatchResult
deriving Repr, DecidableEq

/-- The conversion `CString::from_slice(path_bytes)` of the
contemporaneous standard library: it asserts that the slice holds no
interior null byte (the crate's own decoder comments "CString doesn't
like them") and panics when one occurs; `none` models that panic. -/
def cstringFromSlice (v : List Nat) : Option (List Nat) :=
  if 0 ∈ v then none else some v

/-- Embedding of `INotify::add_watch`, as a function of the path's bytes
and of the outcome (`osRet`, `osErrno`) the OS would produce for the
`ffi::inotify_add_watch` call. -/
def add_watch (pathBytes : List Nat) (osRet : Int) (osErrno : Nat) : AddWatchOutcome :=
  match cstringFromSlice pathBytes with
  | none => { osCalled := false, result := .panicked }
  | some _ =>
    if osRet = -1 then { osCalled := true, result := .error osErrno }
    else { osCalled := true, result := .ok osRet }

/-- Outcome of the `ffi::inotify_init1` call: the returned descriptor and
the value of `errno` right after it. -/
structure InitOutcome where
  fd : Int
  errnoAfterInit : Nat

/-- Embedding of `INotify::init_with_flags`. The `fcntl` pair runs before
the `match fd` check; on `fd = -1` both `fcntl` calls fail and set `errno`
to `EBADF`, and `IoError::last_error()` then reads that `errno`. On a
valid descriptor the pair ORs `O_NONBLOCK` into the flag word `flags0`.
The result is the `errno` value when the function returns, the descriptor
flag word, and the returned `IoResult` (an error carries the `errno` that
`last_error` read). -/
def init_with_flags (os : InitOutcome) (flags0 : Nat) :
    Nat × Nat × Except Nat Int :=
  let errno1 := if os.fd = -1 then EBADF else os.errnoAfterInit
  let flags1 := if os.fd = -1 then flags0 else flags0 ||| O_NONBLOCK
  if os.fd = -1 then (errno1, flags1, .error errno1)
  else (errno1, flags1, .ok os.fd)

/-! ## Wire records and their encoding

Spec-side description of a well-formed wire record, used to state C1 and
C5: a 16-byte header (wd, mask, cookie, name length, each a little-endian
32-bit field) followed by exactly name-length name bytes. -/

/-- One wire record: the 32-bit wire values of the header fields and the
raw name payload (whose length is the header's name-length field). -/
structure RawRecord where
  wd : Nat
  mask : Nat
  cookie : Nat
  nameBytes : List Nat
deriving Repr, DecidableEq

/-- Little-endian 4-byte encoding of a 32-bit value. -/
def toLE32 (n : Nat) : List Nat :=
  [n % 256, n / 2 ^ 8 % 256, n / 2 ^ 16 % 256, n / 2 ^ 24 % 256]

/-- Wire encoding of a record: 16-byte header then the name payload. -/
def encodeRecord (r : RawRecord) : List Nat :=
  toLE32 r.wd ++ toLE32 r.mask ++ toLE32 r.cookie ++
    toLE32 r.nameBytes.length ++ r.nameBytes

/-- Concatenation of encoded records, with no gaps or trailing bytes. -/
def encodeRecords (rs : List RawRecord) : List Nat :=
  (rs.map encodeRecord).flatten

/-- Well-formedness of a record: every header field fits in 32 bits and
the name payload consists of bytes. -/
abbrev WFRecord (r : RawRecord) : Prop :=
  r.wd < 2 ^ 32 ∧ r.mask < 2 ^ 32 ∧ r.cookie < 2 ^ 32 ∧
    r.nameBytes.length < 2 ^ 32 ∧ ∀ b ∈ r.nameBytes, b < 256

/-- The `Event` the decoder is expected to produce for a record. -/
def recordEvent (r : RawRecord) : Event :=
  { wd := toI32 r.wd
    mask := r.mask
    cookie := r.cookie
    name := if 0 < r.nameBytes.length then recordName r.nameBytes else [] }

/-! ## Lemmas about byte reads and the record encoding -/

lemma byteAt_append (l l' : List Nat) (k : Nat) :
    byteAt (l ++ l') (l.length + k) = byteAt l' k := by
  unfold byteAt
  rw [List.getD_append_right _ _ _ _ (Nat.le_add_right _ _), Nat.add_sub_cancel_left]

lemma readLE32_append (l l' : List Nat) (k : Nat) :
    readLE32 (l ++ l') (l.length + k) = readLE32 l' k := by
  unfold readLE32
  rw [(by omega : l.length + k + 1 = l.length + (k + 1)),
    (by omega : l.length + k + 2 = l.length + (k + 2)),
    (by omega : l.length + k + 3 = l.length + (k + 3)),
    byteAt_append, byteAt_append, byteAt_append, byteAt_append]

lemma toLE32_length (n : Nat) : (toLE32 n).length = 4 := rfl

lemma readLE32_toLE32 (n : Nat) (rest : List Nat) (hn : n < 2 ^ 32) :
    readLE32 (toLE32 n ++ rest) 0 = n := by
  simp [readLE32, toLE32, byteAt]
  omega

lemma readLE32_shift4 (m : Nat) (l : List Nat) (k : Nat) :
    readLE32 (toLE32 m ++ l) (4 + k) = readLE32 l k := by
  have h := readLE32_append (toLE32 m) l k
  rw [toLE32_length] at h
  exact h

lemma encodeRecord_length (r : RawRecord) :
    (encodeRecord r).length = 16 + r.nameBytes.length := by
  simp [encodeRecord, toLE32]
  omega

lemma encodeRecord_reads (r : RawRecord) (rest : List Nat)
    (h1 : r.wd < 2 ^ 32) (h2 : r.mask < 2 ^ 32) (h3 : r.cookie < 2 ^ 32)
    (h4 : r.nameBytes.length < 2 ^ 32) :
    readLE32 (encodeRecord r ++ rest) 0 = r.wd ∧
    readLE32 (encodeRecord r ++ rest) 4 = r.mask ∧
    readLE32 (encodeRecord r ++ rest) 8 = r.cookie ∧
    readLE32 (encodeRecord r ++ rest) 12 = r.nameBytes.length := by
  have hassoc : encodeRecord r ++ rest =
      toLE32 r.wd ++ (toLE32 r.mask ++ (toLE32 r.cookie ++
        (toLE32 r.nameBytes.length ++ (r.nameBytes ++ rest)))) := by
    simp [encodeRecord]
  rw [hassoc]
  refine ⟨readLE32_toLE32 _ _ h1, ?_, ?_, ?_⟩
  · exact (readLE32_shift4 _ _ 0).trans (readLE32_toLE32 _ _ h2)
  · exact (readLE32_shift4 _ _ 4).trans
      ((readLE32_shift4 _ _ 0).trans (readLE32_toLE32 _ _ h3))
  · exact (readLE32_shift4 _ _ 8).trans
      ((readLE32_shift4 _ _ 4).trans
        ((readLE32_shift4 _ _ 0).trans (readLE32_toLE32 _ _ h4)))

lemma encodeRecord_drop16 (r : RawRecord) (rest : List Nat) :
    (encodeRecord r ++ rest).drop 16 = r.nameBytes ++ rest := by
  have hassoc : encodeRecord r ++ rest =
      (toLE32 r.wd ++ toLE32 r.mask ++ toLE32 r.cookie ++ toLE32 r.nameBytes.length) ++
        (r.nameBytes ++ rest) := by
    simp [encodeRecord]
  rw [hassoc]
  apply List.drop_left'
  simp [toLE32]

lemma eventAt_encode (pre : List Nat) (r : RawRecord) (rest : List Nat) (h : WFRecord r) :
    eventAt (pre ++ (encodeRecord r ++ rest)) pre.length = recordEvent r := by
  obtain ⟨h1, h2, h3, h4, _⟩ := h
  have reads := encodeRecord_reads r rest h1 h2 h3 h4
  have e0 : readLE32 (pre ++ (encodeRecord r ++ rest)) pre.length = r.wd := by
    have := readLE32_append pre (encodeRecord r ++ rest) 0
    simpa using this.trans reads.1
  have e4 : readLE32 (pre ++ (encodeRecord r ++ rest)) (pre.length + 4) = r.mask :=
    (readLE32_append pre _ 4).trans reads.2.1
  have e8 : readLE32 (pre ++ (encodeRecord r ++ rest)) (pre.length + 8) = r.cookie :=
    (readLE32_append pre _ 8).trans reads.2.2.1
  have e12 : readLE32 (pre ++ (encodeRecord r ++ rest)) (pre.length + 12) =
      r.nameBytes.length :=
    (readLE32_append pre _ 12).trans reads.2.2.2
  have hdrop : (pre ++ (encodeRecord r ++ rest)).drop (pre.length + 16) =
      r.nameBytes ++ rest := by
    rw [← List.drop_drop, List.drop_left, encodeRecord_drop16]
  simp only [eventAt, e0, e4, e8, e12, hdrop, List.take_left, recordEvent]

lemma decodeFrom_eq (buf : List Nat) (len i : Nat) :
    decodeFrom buf len i =
      if i < len then
        eventAt buf i :: decodeFrom buf len (i + 16 + readLE32 buf (i + 12))
      else [] := by
  rw [decodeFrom]
  by_cases h : i < len
  · rw [dif_pos h, if_pos h]
  · rw [dif_neg h, if_neg h]

lemma decodeEndOffset_eq (buf : List Nat) (len i : Nat) :
    decodeEndOffset buf len i =
      if i < len then decodeEndOffset buf len (i + 16 + readLE32 buf (i + 12))
      else i := by
  rw [decodeEndOffset]
  by_cases h : i < len
  · rw [dif_pos h, if_pos h]
  · rw [dif_neg h, if_neg h]

lemma decode_encode_aux (rs : List RawRecord) :
    ∀ pre : List Nat, (∀ r ∈ rs, WFRecord r) →
      decodeFrom (pre ++ encodeRecords rs) (pre.length + (encodeRecords rs).length)
          pre.length = rs.map recordEvent ∧
      decodeEndOffset (pre ++ encodeRecords rs) (pre.length + (encodeRecords rs).length)
          pre.length = pre.length + (encodeRecords rs).length := by
  induction rs with
  | nil =>
    intro pre _
    simp only [encodeRecords, List.map_nil, List.flatten_nil, List.append_nil,
      List.length_nil, Nat.add_zero]
    constructor
    · rw [decodeFrom_eq, if_neg (lt_irrefl _)]
    · rw [decodeEndOffset_eq, if_neg (lt_irrefl _)]
  | cons r rs ih =>
    intro pre h
    have hr : WFRecord r := h r (List.mem_cons_self _ _)
    have hrs : ∀ x ∈ rs, WFRecord x := fun x hx => h x (List.mem_cons_of_mem _ hx)
    obtain ⟨h1, h2, h3, h4, h5⟩ := hr
    have henc : encodeRecords (r :: rs) = encodeRecord r ++ encodeRecords rs := by
      simp [encodeRecords]
    have hlen : (encodeRecords (r :: rs)).length =
        (16 + r.nameBytes.length) + (encodeRecords rs).length := by
      rw [henc, List.length_append, encodeRecord_length]
    have hcond : pre.length < pre.length + (encodeRecords (r :: rs)).length := by
      omega
    have hbuf : pre ++ encodeRecords (r :: rs) =
        pre ++ (encodeRecord r ++ encodeRecords rs) := by rw [henc]
    have hread12 : readLE32 (pre ++ encodeRecords (r :: rs)) (pre.length + 12) =
        r.nameBytes.length := by
      rw [hbuf, readLE32_append]
      exact (encodeRecord_reads r _ h1 h2 h3 h4).2.2.2
    have hev : eventAt (pre ++ encodeRecords (r :: rs)) pre.length = recordEvent r := by
      rw [hbuf]
      exact eventAt_encode pre r _ ⟨h1, h2, h3, h4, h5⟩
    have hbuf2 : pre ++ encodeRecords (r :: rs) =
        (pre ++ encodeRecord r) ++ encodeRecords rs := by
      rw [hbuf, List.append_assoc]
    have hoff : pre.length + 16 + r.nameBytes.length = (pre ++ encodeRecord r).length := by
      rw [List.length_append, encodeRecord_length]
      omega
    have hlen2 : pre.length + (encodeRecords (r :: rs)).length =
        (pre ++ encodeRecord r).length + (encodeRecords rs).length := by
      rw [List.length_append, encodeRecord_length, hlen]
      omega
    obtain ⟨ih1, ih2⟩ := ih (pre ++ encodeRecord r) hrs
    constructor
    · rw [decodeFrom_eq, if_pos hcond, hread12, hev, List.map_cons]
      congr 1
      rw [hoff, hlen2, hbuf2]
      exact ih1
    · rw [decodeEndOffset_eq, if_pos hcond, hread12, hoff, hlen2, hbuf2]
      rw [ih2, ← hlen2]

lemma encode_name_slice (pre : List Nat) (r : RawRecord) (rest : List Nat) :
    ((pre ++ (encodeRecord r ++ rest)).drop (pre.length + 16)).take r.nameBytes.length =
      r.nameBytes := by
  rw [← List.drop_drop, List.drop_left, encodeRecord_drop16, List.take_left]

lemma decodeFromChecked_eq (buf : List Nat) (len i : Nat) :
    decodeFromChecked buf len i =
      if i < len then
        if (if 0 < readLE32 buf (i + 12) then
              validUTF8 (recordName ((buf.drop (i + 16)).take (readLE32 buf (i + 12))))
            else true) then
          (decodeFromChecked buf len (i + 16 + readLE32 buf (i + 12))).map
            (fun t => eventAt buf i :: t)
        else none
      else some [] := by
  rw [decodeFromChecked]
  by_cases h : i < len
  · rw [dif_pos h, if_pos h]
  · rw [dif_neg h, if_neg h]

lemma decode_encode_checked_aux (rs : List RawRecord) :
    ∀ pre : List Nat, (∀ r ∈ rs, WFRecord r) →
      (∀ r ∈ rs, validUTF8 (recordName r.nameBytes) = true) →
      decodeFromChecked (pre ++ encodeRecords rs) (pre.length + (encodeRecords rs).length)
          pre.length = some (rs.map recordEvent) := by
  induction rs with
  | nil =>
    intro pre _ _
    simp only [encodeRecords, List.map_nil, List.flatten_nil, List.append_nil,
      List.length_nil, Nat.add_zero]
    rw [decodeFromChecked_eq, if_neg (lt_irrefl _)]
  | cons r rs ih =>
    intro pre h hu
    have hr : WFRecord r := h r (List.mem_cons_self _ _)
    have hrs : ∀ x ∈ rs, WFRecord x := fun x hx => h x (List.mem_cons_of_mem _ hx)
    have hus : ∀ x ∈ rs, validUTF8 (recordName x.nameBytes) = true :=
      fun x hx => hu x (List.mem_cons_of_mem _ hx)
    obtain ⟨h1, h2, h3, h4, h5⟩ := hr
    have henc : encodeRecords (r :: rs) = encodeRecord r ++ encodeRecords rs := by
      simp [encodeRecords]
    have hlen : (encodeRecords (r :: rs)).length =
        (16 + r.nameBytes.length) + (encodeRecords rs).length := by
      rw [henc, List.length_append, encodeRecord_length]
    have hcond : pre.length < pre.length + (encodeRecords (r :: rs)).length := by
      omega
    have hbuf : pre ++ encodeRecords (r :: rs) =
        pre ++ (encodeRecord r ++ encodeRecords rs) := by rw [henc]
    have hread12 : readLE32 (pre ++ encodeRecords (r :: rs)) (pre.length + 12) =
        r.nameBytes.length := by
      rw [hbuf, readLE32_append]
      exact (encodeRecord_reads r _ h1 h2 h3 h4).2.2.2
    have hev : eventAt (pre ++ encodeRecords (r :: rs)) pre.length = recordEvent r := by
      rw [hbuf]
      exact eventAt_encode pre r _ ⟨h1, h2, h3, h4, h5⟩
    have hbuf2 : pre ++ encodeRecords (r :: rs) =
        (pre ++ encodeRecord r) ++ encodeRecords rs := by
      rw [hbuf, List.append_assoc]
    have hoff : pre.length + 16 + r.nameBytes.length = (pre ++ encodeRecord r).length := by
      rw [List.length_append, encodeRecord_length]
      omega
    have hlen2 : pre.length + (encodeRecords (r :: rs)).length =
        (pre ++ encodeRecord r).length + (encodeRecords rs).length := by
      rw [List.length_append, encodeRecord_length, hlen]
      omega
    have hname : (if 0 < readLE32 (pre ++ encodeRecords (r :: rs)) (pre.length + 12) then
          validUTF8 (recordName (((pre ++ encodeRecords (r :: rs)).drop
            (pre.length + 16)).take
            (readLE32 (pre ++ encodeRecords (r :: rs)) (pre.length + 12))))
        else true) = true := by
      rw [hread12]
      by_cases hL : 0 < r.nameBytes.length
      · rw [if_pos hL, hbuf, encode_name_slice]
        exact hu r (List.mem_cons_self _ _)
      · rw [if_neg hL]
    rw [decodeFromChecked_eq, if_pos hcond, if_pos hname, hread12, hev, hoff, hlen2,
      hbuf2, ih (pre ++ encodeRecord r) hrs hus]
    simp

/-- The record whose single name byte `0xFF` is well-formed at the wire
level but can never be valid UTF-8. -/
def badRecord : RawRecord := { wd := 3, mask := 256, cookie := 0, nameBytes := [255] }

/-- C1 (counterexample): `badRecord` is a well-formed record (16-byte
header plus exactly name-length name bytes), yet the decode pass over
the buffer holding exactly this one record does not produce one event:
the loop's UTF-8 conversion of the name byte `0xFF` panics
(`wrapper.rs` lines 169-174), so the pass aborts with no events and
`available_events` never returns — refuting the claim's unconditional
"produces exactly K events". -/
theorem decode_invalid_utf8_panics :
    WFRecord badRecord ∧
    decodeFromChecked (encodeRecords [badRecord]) (encodeRecords [badRecord]).length 0 =
      none ∧
    available_events_checked []
        ⟨((encodeRecords [badRecord]).length : Int), 0, encodeRecords [badRecord]⟩ =
      none := by
  have hchk : decodeFromChecked (encodeRecords [badRecord])
      (encodeRecords [badRecord]).length 0 = none := by
    rw [decodeFromChecked_eq, if_pos (by decide), if_neg (by decide)]
  refine ⟨by decide, hchk, ?_⟩
  have hne0 : ((encodeRecords [badRecord]).length : Int) ≠ 0 := by decide
  have hnem1 : ((encodeRecords [badRecord]).length : Int) ≠ -1 := by decide
  simp only [available_events_checked, hne0, hnem1, if_false, Int.toNat_natCast, hchk,
    Option.map_none']

/-- C1 (amended): a buffer holding exactly `K` concatenated well-formed
records, each of whose null-truncated names is valid UTF-8, and no
trailing partial record decodes, in one pass and without panicking, to
exactly `K` events in the original record order (`decodeFromChecked`
returns `some (rs.map recordEvent)`, and the unchecked loop agrees); the
cursor advances 16 + name-length per record and stops exactly at the
buffer's length; and, for a nonempty record list, `available_events`
after a successful read of that buffer returns exactly those events. -/
theorem decode_wellformed_records_utf8 (rs : List RawRecord)
    (h : ∀ r ∈ rs, WFRecord r)
    (hu : ∀ r ∈ rs, validUTF8 (recordName r.nameBytes) = true) :
    decodeFromChecked (encodeRecords rs) (encodeRecords rs).length 0 =
      some (rs.map recordEvent) ∧
    decodeFrom (encodeRecords rs) (encodeRecords rs).length 0 = rs.map recordEvent ∧
    decodeEndOffset (encodeRecords rs) (encodeRecords rs).length 0 =
      (encodeRecords rs).length ∧
    (rs ≠ [] → ∀ (events0 : List Event) (e : Nat),
      available_events_checked events0
          ⟨((encodeRecords rs).length : Int), e, encodeRecords rs⟩ =
        some (rs.map recordEvent, .ok (rs.map recordEvent))) := by
  have main := decode_encode_aux rs [] h
  simp only [List.nil_append, List.length_nil, Nat.zero_add] at main
  have mainc := decode_encode_checked_aux rs [] h hu
  simp only [List.nil_append, List.length_nil, Nat.zero_add] at mainc
  refine ⟨mainc, main.1, main.2, ?_⟩
  intro hne events0 e
  have hpos : 0 < (encodeRecords rs).length := by
    match rs, hne with
    | r :: rs, _ =>
      have : (encodeRecords (r :: rs)).length =
          (16 + r.nameBytes.length) + (encodeRecords rs).length := by
        simp [encodeRecords, encodeRecord_length]
      omega
  have hne0 : ((encodeRecords rs).length : Int) ≠ 0 := by
    intro heq
    rw [Int.natCast_eq_zero] at heq
    omega
  have hnem1 : ((encodeRecords rs).length : Int) ≠ -1 := by
    intro heq
    have := Int.natCast_nonneg (encodeRecords rs).length
    omega
  have htoNat : (((encodeRecords rs).length : Int)).toNat = (encodeRecords rs).length :=
    Int.toNat_natCast _
  simp only [available_events_checked, hne0, hnem1, if_false, htoNat, mainc,
    Option.map_some']

/-- Two concrete well-formed records (the spec's own scenario: a create
event for `a.txt` with null padding, then a second record without a name
field). -/
def wrs : List RawRecord :=
  [{ wd := 3, mask := 256, cookie := 0, nameBytes := [97, 46, 116, 120, 116, 0, 0, 0] },
   { wd := 1, mask := 2, cookie := 0, nameBytes := [] }]

theorem decode_wellformed_records_utf8_witness :
    decodeFromChecked (encodeRecords wrs) (encodeRecords wrs).length 0 =
      some (wrs.map recordEvent) ∧
    available_events_checked []
        ⟨((encodeRecords wrs).length : Int), 0, encodeRecords wrs⟩ =
      some (wrs.map recordEvent, .ok (wrs.map recordEvent)) :=
  ⟨(decode_wellformed_records_utf8 wrs (by decide) (by decide)).1,
   (decode_wellformed_records_utf8 wrs (by decide) (by decide)).2.2.2 (by decide) [] 0⟩

/-! ## Name truncation (C5) -/

lemma eventAt_name (buf : List Nat) (i : Nat) :
    (eventAt buf i).name =
      if 0 < readLE32 buf (i + 12) then
        recordName ((buf.drop (i + 16)).take (readLE32 buf (i + 12)))
      else [] := rfl

lemma takeWhile_ne_append_null (a b : List Nat) (ha : (0 : Nat) ∉ a) :
    (a ++ 0 :: b).takeWhile (· ≠ 0) = a := by
  induction a with
  | nil => simp
  | cons x a iha =>
    have hx : x ≠ 0 := fun hx0 => ha (by simp [hx0])
    have ha' : (0 : Nat) ∉ a := fun hmem => ha (List.mem_cons_of_mem _ hmem)
    rw [List.cons_append, List.takeWhile_cons_of_pos (by simp [hx]), iha ha']

lemma eventAt_name_no_null (buf : List Nat) (i : Nat) :
    (0 : Nat) ∉ (eventAt buf i).name := by
  rw [eventAt_name]
  by_cases h : 0 < readLE32 buf (i + 12)
  · rw [if_pos h]
    intro hmem
    have := List.mem_takeWhile_imp hmem
    simp at this
  · rw [if_neg h]
    simp

lemma mem_decodeFrom_no_null (buf : List Nat) (len : Nat) :
    ∀ (n i : Nat), len - i ≤ n → ∀ ev ∈ decodeFrom buf len i, (0 : Nat) ∉ ev.name := by
  intro n
  induction n with
  | zero =>
    intro i hle ev hmem
    rw [decodeFrom_eq, if_neg (by omega)] at hmem
    simp at hmem
  | succ n ihn =>
    intro i hle ev hmem
    rw [decodeFrom_eq] at hmem
    by_cases hi : i < len
    · rw [if_pos hi] at hmem
      rcases List.mem_cons.mp hmem with hev | hev
      · rw [hev]
        exact eventAt_name_no_null buf i
      · exact ihn (i + 16 + readLE32 buf (i + 12)) (by omega) ev hev
    · rw [if_neg hi] at hmem
      simp at hmem

/-- C5: in a decode pass, a record whose name-length field is zero yields
an event with empty name; a record whose name payload has its first null
byte at position `p` yields as name exactly the payload's first `p` bytes
(= the null-free prefix `a`); consequently no decoded event's name ever
contains a null byte. -/
theorem decoded_name_truncation (buf : List Nat) (len i : Nat) :
    (∀ ev ∈ decodeFrom buf len 0, (0 : Nat) ∉ ev.name) ∧
    (readLE32 buf (i + 12) = 0 → (eventAt buf i).name = []) ∧
    (∀ a b : List Nat, 0 < readLE32 buf (i + 12) →
      (buf.drop (i + 16)).take (readLE32 buf (i + 12)) = a ++ 0 :: b →
      (0 : Nat) ∉ a →
      (eventAt buf i).name = a ∧
      a = ((buf.drop (i + 16)).take (readLE32 buf (i + 12))).take a.length) := by
  refine ⟨fun ev hmem => mem_decodeFrom_no_null buf len len 0 (by omega) ev hmem, ?_, ?_⟩
  · intro h0
    rw [eventAt_name, if_neg (by omega)]
  · intro a b hpos hsplit ha
    constructor
    · rw [eventAt_name, if_pos hpos]
      unfold recordName
      rw [hsplit]
      exact takeWhile_ne_append_null a b ha
    · rw [hsplit]
      exact (List.take_left _ _).symm

/-- One encoded record whose 3-byte name payload is `97, 0, 0`: the first
null sits at position 1. -/
def nulbuf : List Nat := [3, 0, 0, 0, 1, 0, 0, 0, 0, 0, 0, 0, 3, 0, 0, 0, 97, 0, 0]

theorem decoded_name_truncation_witness :
    (eventAt nulbuf 0).name = [97] ∧
    ([97] : List Nat) = ((nulbuf.drop 16).take (readLE32 nulbuf 12)).take 1 :=
  (decoded_name_truncation nulbuf 19 0).2.2 [97] [0] (by decide) (by decide) (by decide)

/-! ## Termination of the decode loop (C10) -/

lemma decodeFromFuel_eq (fuel : Nat) :
    ∀ (buf : List Nat) (len i : Nat), len - i ≤ fuel →
      decodeFromFuel fuel buf len i = some (decodeFrom buf len i) := by
  induction fuel with
  | zero =>
    intro buf len i hle
    have hnl : ¬ i < len := by omega
    simp only [decodeFromFuel, decodeFrom_eq buf len i, if_neg hnl]
  | succ f ihf =>
    intro buf len i hle
    rw [decodeFrom_eq]
    by_cases hi : i < len
    · simp only [decodeFromFuel, if_pos hi,
        ihf buf len (i + 16 + readLE32 buf (i + 12)) (by omega), Option.map_some']
    · simp only [decodeFromFuel, if_neg hi]

lemma decodeFrom_length_bound (buf : List Nat) (len : Nat) :
    ∀ (n i : Nat), len - i ≤ n → 16 * (decodeFrom buf len i).length ≤ (len - i) + 15 := by
  intro n
  induction n with
  | zero =>
    intro i hle
    rw [decodeFrom_eq, if_neg (by omega)]
    simp
  | succ n ihn =>
    intro i hle
    rw [decodeFrom_eq]
    by_cases hi : i < len
    · rw [if_pos hi]
      have hrec := ihn (i + 16 + readLE32 buf (i + 12)) (by omega)
      simp only [List.length_cons]
      omega
    · rw [if_neg hi]
      simp

/-- C10: the decode loop terminates on every buffer, well-formed or not:
each iteration advances the offset by `16 +` the record's name-length
field, so `len - i` units of fuel always suffice for the fuel-indexed
copy of the loop to finish (it never returns `none`), and the number of
iterations is bounded by one sixteenth of the remaining byte count. -/
theorem decode_loop_terminates (buf : List Nat) (len i : Nat) :
    decodeFromFuel (len - i) buf len i = some (decodeFrom buf len i) ∧
    16 * (decodeFrom buf len i).length ≤ (len - i) + 15 :=
  ⟨decodeFromFuel_eq (len - i) buf len i (Nat.le_refl _),
   decodeFrom_length_bound buf len (len - i) i (Nat.le_refl _)⟩

/-! ## Error handling of `available_events` (C2, C6) -/

/-- C2: when the read fails with the OS would-block condition (`EAGAIN` /
`EWOULDBLOCK`), `available_events` returns success with an empty event
sequence; and among the possible outcomes of `read` (return value `-1` or
nonnegative) this is the only path on which a successful result carries
zero events. -/
theorem would_block_gives_empty_ok (events0 : List Event) (r : ReadOutcome) :
    (r.retval = -1 → (r.errnoAfter = EAGAIN ∨ r.errnoAfter = EWOULDBLOCK) →
      (available_events events0 r).2 = .ok []) ∧
    ((r.retval = -1 ∨ 0 ≤ r.retval) →
      (available_events events0 r).2 = .ok [] →
      r.retval = -1 ∧ (r.errnoAfter = EAGAIN ∨ r.errnoAfter = EWOULDBLOCK)) := by
  constructor
  · intro h1 h2
    simp [available_events, h1, h2]
  · intro hr hok
    by_cases h0 : r.retval = 0
    · simp [available_events, h0] at hok
    · by_cases hm1 : r.retval = -1
      · by_cases hwb : r.errnoAfter = EAGAIN ∨ r.errnoAfter = EWOULDBLOCK
        · exact ⟨hm1, hwb⟩
        · simp [available_events, hm1, hwb] at hok
      · exfalso
        have hpos : 0 < r.retval := by
          rcases hr with h | h
          · exact absurd h hm1
          · omega
        have htn : 0 < r.retval.toNat := by omega
        simp [available_events, h0, hm1] at hok
        rw [decodeFrom_eq, if_pos htn] at hok
        exact List.cons_ne_nil _ _ hok

theorem would_block_gives_empty_ok_witness :
    (available_events [] ⟨-1, 11, []⟩).2 = .ok [] ∧
    ((-1 : Int) = -1 ∧ ((11 : Nat) = EAGAIN ∨ (11 : Nat) = EWOULDBLOCK)) :=
  ⟨(would_block_gives_empty_ok [] ⟨-1, 11, []⟩).1 rfl (Or.inl rfl),
   (would_block_gives_empty_ok [] ⟨-1, 11, []⟩).2 (Or.inl rfl)
     ((would_block_gives_empty_ok [] ⟨-1, 11, []⟩).1 rfl (Or.inl rfl))⟩

/-- C6: a read returning zero bytes makes `available_events` fail with
the end-of-stream error, and leaves the events container empty (the
previous batch was cleared before the read). -/
theorem eof_gives_error_and_empty (events0 : List Event) (r : ReadOutcome)
    (h : r.retval = 0) :
    available_events events0 r = ([], .error .endOfFile) := by
  simp [available_events, h]

theorem eof_gives_error_and_empty_witness :
    available_events [] ⟨0, 0, []⟩ = ([], .error .endOfFile) :=
  eof_gives_error_and_empty [] ⟨0, 0, []⟩ rfl

/-! ## Restoration of non-blocking mode (C3) -/

/-- C3: whatever the outcome of the underlying read (success, would-block,
end-of-stream, or any other read error), `wait_for_events` returns with
the descriptor's `O_NONBLOCK` attribute set: the final `fcntl` pair ORs
the bit back in on every exit path. -/
theorem wait_restores_nonblock (flags0 : Nat) (events0 : List Event) (r : ReadOutcome) :
    (wait_for_events flags0 events0 r).1 &&& O_NONBLOCK = O_NONBLOCK := by
  show ((flags0 &&& (2 ^ 32 - 1 - O_NONBLOCK)) ||| O_NONBLOCK) &&& O_NONBLOCK = O_NONBLOCK
  apply Nat.eq_of_testBit_eq
  intro j
  simp only [Nat.testBit_and, Nat.testBit_or]
  cases hx : (flags0 &&& (2 ^ 32 - 1 - O_NONBLOCK)).testBit j <;>
    cases hb : O_NONBLOCK.testBit j <;> simp

/-! ## Watch removal (C7) -/

/-- C7: `rm_watch` maps the OS return code `0` to success, `-1` to a
typed error carrying `errno`, and every other return code to the
`panic!` arm (a non-recoverable stop), never to a typed error. -/
theorem rm_watch_cases (osResult : Int) (errnoAfter : Nat) :
    (osResult = 0 → rm_watch osResult errnoAfter = .ok) ∧
    (osResult = -1 → rm_watch osResult errnoAfter = .error errnoAfter) ∧
    (osResult ≠ 0 → osResult ≠ -1 → rm_watch osResult errnoAfter = .panicked) :=
  ⟨fun h => by simp [rm_watch, h],
   fun h => by simp [rm_watch, h],
   fun h1 h2 => by simp [rm_watch, h1, h2]⟩

theorem rm_watch_cases_witness :
    rm_watch 0 7 = .ok ∧ rm_watch (-1) 7 = .error 7 ∧ rm_watch 5 7 = .panicked :=
  ⟨(rm_watch_cases 0 7).1 rfl, (rm_watch_cases (-1) 7).2.1 rfl,
   (rm_watch_cases 5 7).2.2 (by decide) (by decide)⟩

/-! ## Initialization (C8) -/

/-- C8 (code bug): `init_with_flags` runs the `fcntl` pair on the
returned descriptor before checking it against `-1`, and only then reads
`errno` via `IoError::last_error()`. When `inotify_init1` fails (here
with `errno = 24`, `EMFILE`), the `fcntl` calls on the invalid descriptor
`-1` overwrite `errno` with `EBADF = 9`, so the returned error carries
`9` — an error code produced by a later operation, not the creation
call's own code — contradicting the claim. The success path does force
`O_NONBLOCK` into the flag word as claimed. -/
theorem init_error_code_clobbered :
    init_with_flags ⟨-1, 24⟩ 0 = (EBADF, 0, .error EBADF) ∧
    EBADF ≠ 24 ∧
    init_with_flags ⟨5, 0⟩ 3 = (0, 3 ||| O_NONBLOCK, .ok 5) ∧
    (3 ||| O_NONBLOCK) &&& O_NONBLOCK = O_NONBLOCK :=
  ⟨rfl, by decide, rfl, by decide⟩

/-! ## Watch registration on a path with an embedded null (C9) -/

/-- C9 (counterexample): on the path bytes `97, 0, 98` (an embedded null)
`add_watch` hits the `CString::from_slice` assertion and panics; it does
not return a typed error, contrary to the claim's "returns a typed
`EncodingError` rather than aborting". It does, as claimed, never invoke
`inotify_add_watch`. -/
theorem add_watch_null_path_panics :
    add_watch [97, 0, 98] 5 17 = { osCalled := false, result := .panicked } := by
  decide

/-- C9 (amended): for every path containing an embedded null byte,
`add_watch` aborts (panics in the `CString` conversion) without asking
the OS to register the path; no typed error is returned to the caller. -/
theorem add_watch_null_path_aborts (pathBytes : List Nat) (osRet : Int) (osErrno : Nat)
    (h : (0 : Nat) ∈ pathBytes) :
    add_watch pathBytes osRet osErrno = { osCalled := false, result := .panicked } := by
  simp [add_watch, cstringFromSlice, h]

theorem add_watch_null_path_aborts_witness :
    add_watch [0] 3 4 = { osCalled := false, result := .panicked } :=
  add_watch_null_path_aborts [0] 3 4 (by decide)

end Inotify
